import Mathlib

/-!
Verification of the WebSocket gateway (Asphalt-69/Messaging-Platform,
`Backend/Websocket-gateway`).  The Go sources are shallowly embedded:
Go maps become association lists with unique keys, pointers to `Client`
objects become client-id strings, goroutine side effects (context
cancellation, channel close, socket close, invoking the registered
hooks) become explicit state flags and event lists, and `time.Time`
values become integers.
-/

set_option maxRecDepth 4000

namespace Gateway

/-! ## Association-list helpers (the embedding of Go maps) -/

/-- Lookup in an association list (Go map read `m[k]`). -/
def lookupA {V : Type} : List (String × V) → String → Option V
  | [], _ => none
  | p :: t, k => if p.1 = k then some p.2 else lookupA t k

/-- Insert or replace (Go map write `m[k] = v`).  With unique keys the
first matching entry is the only one. -/
def insertA {V : Type} : List (String × V) → String → V → List (String × V)
  | [], k, v => [(k, v)]
  | p :: t, k, v => if p.1 = k then (k, v) :: t else p :: insertA t k v

/-- Delete (Go `delete(m, k)`).  Removes the first matching entry. -/
def eraseA {V : Type} : List (String × V) → String → List (String × V)
  | [], _ => []
  | p :: t, k => if p.1 = k then t else p :: eraseA t k

/-- Update the value stored at a key in place (Go mutation through a
pointer held in the map). -/
def updateA {V : Type} : List (String × V) → String → (V → V) → List (String × V)
  | [], _, _ => []
  | p :: t, k, f => if p.1 = k then (p.1, f p.2) :: t else p :: updateA t k f

/-- Replace the element at index `i` of a list; out of range is the
identity (Go would panic there; all uses are guarded by the shard-index
bound). -/
def setAt {α : Type} : List α → Nat → α → List α
  | [], _, _ => []
  | _ :: t, 0, v => v :: t
  | a :: t, n + 1, v => a :: setAt t n v

/-! ## UTF-8 bytes and FNV-1a (hash/fnv, used by `Manager.getShardID`) -/

/-- UTF-8 encoding of a single character, as byte values. -/
def charUtf8 (c : Char) : List Nat :=
  let n := c.toNat
  if n < 128 then [n]
  else if n < 2048 then [192 ||| (n >>> 6), 128 ||| (n &&& 63)]
  else if n < 65536 then
    [224 ||| (n >>> 12), 128 ||| ((n >>> 6) &&& 63), 128 ||| (n &&& 63)]
  else
    [240 ||| (n >>> 18), 128 ||| ((n >>> 12) &&& 63),
     128 ||| ((n >>> 6) &&& 63), 128 ||| (n &&& 63)]

/-- The bytes of a string (Go `[]byte(key)`). -/
def utf8Bytes (s : String) : List Nat :=
  s.data.foldr (fun c acc => charUtf8 c ++ acc) []

/-- 32-bit FNV-1a over the bytes of a string: `h := (h XOR b) * 16777619`
with 32-bit wraparound, seeded with 2166136261 (Go `fnv.New32a`). -/
def fnv32a (s : String) : Nat :=
  (utf8Bytes s).foldl (fun h b => ((h ^^^ b) * 16777619) % 4294967296) 2166136261

/-! ## Client (internal/connection/client.go)

The Go `Client` owns a socket, a cancellable context and a buffered
channel `Send` of capacity 256.  The context/channel/socket are
represented by the flags `cancelled`, `sendClosed`, `connClosed`; the
channel's buffered contents are the list `send` and its capacity the
field `sendCap`.  A `*Client` pointer is identified by its `id`. -/

structure ClientMetrics where
  messagesSent : Nat
  messagesReceived : Nat
  bytesSent : Nat
  bytesReceived : Nat
  lastPingTime : Int
  deriving Repr, DecidableEq

structure Client where
  id : String
  userID : String
  deviceID : String
  ip : String
  send : List (List Nat)
  sendCap : Nat
  rateLimit : Nat
  burst : Nat
  connectedAt : Int
  lastActivity : Int
  shardID : Nat
  authenticated : Bool
  closing : Bool
  cancelled : Bool
  sendClosed : Bool
  connClosed : Bool
  metrics : ClientMetrics
  deriving Repr, DecidableEq

inductive WriteErr where
  | clientClosed
  | clientSlow
  deriving Repr, DecidableEq

/-- Embeds `NewClient` (client.go:54): fresh client with an empty buffered send
channel of capacity 256. -/
def NewClient (clientID ip : String) (shardID : Nat) (rateLimit burst : Nat)
    (now : Int) : Client :=
  { id := clientID
    userID := ""
    deviceID := ""
    ip := ip
    send := []
    sendCap := 256
    rateLimit := rateLimit
    burst := burst
    connectedAt := now
    lastActivity := now
    shardID := shardID
    authenticated := false
    closing := false
    cancelled := false
    sendClosed := false
    connClosed := false
    metrics := ⟨0, 0, 0, 0, 0⟩ }

/-- Embeds `SetAuthenticated` (client.go:82). -/
def Client.SetAuthenticated (c : Client) (userID deviceID : String) : Client :=
  { c with userID := userID, deviceID := deviceID, authenticated := true }

/-- Embeds `WriteMessage` (client.go:100): if the client is closing return
`ErrClientClosed`; the non-blocking `select` enqueues when the buffered
channel has room and otherwise hits `default`, dropping the message and
returning `ErrClientSlow`. -/
def Client.WriteMessage (c : Client) (message : List Nat) : Client × Option WriteErr :=
  if c.closing then (c, some .clientClosed)
  else if c.send.length < c.sendCap then
    ({ c with send := c.send ++ [message],
               metrics := { c.metrics with
                  messagesSent := c.metrics.messagesSent + 1,
                  bytesSent := c.metrics.bytesSent + message.length } }, none)
  else (c, some .clientSlow)

/-- Embeds `Close` (client.go:231): a no-op when already closing; otherwise set
the closing flag, cancel the context, close the send channel, close the
socket. -/
def Client.Close (c : Client) (_reason : String) : Client :=
  if c.closing then c
  else { c with closing := true, cancelled := true, sendClosed := true,
                connClosed := true }

/-! ## Shard (internal/connection/shard.go)

`clients` is the primary map `client_id → Client`; `userClients` is the
secondary map `user_id → (device_id → client)`.  The Go secondary map
stores `*Client` pointers; here it stores the client ids those pointers
denote. -/

structure ShardStats where
  totalConnections : Int
  activeConnections : Int
  disconnections : Int
  messagesProcessed : Int
  bytesProcessed : Int
  lastCleanup : Int
  deriving Repr, DecidableEq

structure Shard where
  sid : Nat
  clients : List (String × Client)
  userClients : List (String × List (String × String))
  stats : ShardStats
  deriving Repr, DecidableEq

/-- Embeds `NewShard` (shard.go:31). -/
def NewShard (id : Nat) : Shard :=
  { sid := id, clients := [], userClients := [], stats := ⟨0, 0, 0, 0, 0, 0⟩ }

/-- Embeds `AddClient` (shard.go:41). -/
def Shard.AddClient (s : Shard) (client : Client) : Shard :=
  { s with clients := insertA s.clients client.id client,
           stats := { s.stats with
              totalConnections := s.stats.totalConnections + 1,
              activeConnections := s.stats.activeConnections + 1 } }

/-- Embeds `GetClient` (shard.go:87). -/
def Shard.GetClient (s : Shard) (clientID : String) : Option Client :=
  lookupA s.clients clientID

/-- The user-index cleanup shared by `RemoveClient` (shard.go:67) and
`CleanupInactive` (shard.go:156): delete the device entry and drop the
user entry when its device map becomes empty. -/
def removeUserDevice (uc : List (String × List (String × String)))
    (userID deviceID : String) : List (String × List (String × String)) :=
  match lookupA uc userID with
  | none => uc
  | some devices =>
    let devices' := eraseA devices deviceID
    if devices'.isEmpty then eraseA uc userID
    else insertA uc userID devices'

/-- The mutation performed by `Shard.RemoveClient` (shard.go:63) once
the client has been found: delete it from the primary map, delete its
user-index entry when it is authenticated, update the stats. -/
def Shard.dropClient (s : Shard) (client : Client) (clientID : String) : Shard :=
  { s with clients := eraseA s.clients clientID,
           userClients :=
             if client.userID ≠ "" then
               removeUserDevice s.userClients client.userID client.deviceID
             else s.userClients,
           stats := { s.stats with
              activeConnections := s.stats.activeConnections - 1,
              disconnections := s.stats.disconnections + 1 } }

/-- Embeds `Shard.RemoveClient` (shard.go:55): returns the removed client (Go
returns `nil` when absent) together with the updated shard. -/
def Shard.RemoveClient (s : Shard) (clientID : String) : Option Client × Shard :=
  match lookupA s.clients clientID with
  | none => (none, s)
  | some client => (some client, s.dropClient client clientID)

/-- Embeds `RegisterAuthenticatedClient` (shard.go:113): mark the client
authenticated (mutating the object the primary map points to) and write
it into the user index, overwriting whatever entry was there. -/
def Shard.RegisterAuthenticatedClient (s : Shard) (client : Client)
    (userID deviceID : String) : Shard :=
  let c' := client.SetAuthenticated userID deviceID
  let devices :=
    match lookupA s.userClients userID with
    | none => ([] : List (String × String))
    | some d => d
  { s with clients := updateA s.clients client.id (fun _ => c'),
           userClients := insertA s.userClients userID (insertA devices deviceID client.id) }

/-- The staleness test of `CleanupInactive` (shard.go:151):
`now.Sub(client.LastActivity) > timeout`. -/
def staleAt (now timeout : Int) (c : Client) : Bool :=
  now - c.lastActivity > timeout

/-- Embeds `CleanupInactive` (shard.go:143): delete every stale client from the
primary map and from the user index, and return the removed ids. -/
def Shard.CleanupInactive (s : Shard) (now timeout : Int) : List String × Shard :=
  let stale := s.clients.filter (fun p => staleAt now timeout p.2)
  let removed := stale.map Prod.fst
  let clients' := s.clients.filter (fun p => !(staleAt now timeout p.2))
  let userClients' := stale.foldl
    (fun uc p => if p.2.userID ≠ "" then removeUserDevice uc p.2.userID p.2.deviceID else uc)
    s.userClients
  (removed,
   { s with clients := clients', userClients := userClients',
            stats := { s.stats with
               activeConnections := s.stats.activeConnections - removed.length,
               lastCleanup := now } })

/-- The number of entries of a primary client map that are live
authenticated sessions of user `u` (the count the spec's user-concurrency
cap speaks about). -/
def countU (l : List (String × Client)) (u : String) : Nat :=
  (l.filter (fun p => p.2.authenticated && p.2.userID == u)).length

/-! ## Configuration (internal/config/config.go)

Only the keys the connection plane reads.  `setDefaults`
(config.go:109) fixes the documented default values. -/

structure GWConfig where
  shardCount : Nat
  globalConnections : Int
  connectionsPerUser : Nat
  pongWait : Int
  deriving Repr, DecidableEq

/-- Default `server.max_message_size` from `setDefaults` (config.go:114):
512 KiB. -/
def defaultMaxMessageSize : Nat := 512 * 1024

/-- Default `server.pong_wait` from `setDefaults` (config.go:116), in
seconds. -/
def defaultPongWait : Int := 60

/-- Embeds `nextPowerOfTwo` (manager.go:255), on a 32-bit unsigned integer with
Go wraparound. -/
def nextPowerOfTwoU32 (n : Nat) : Nat :=
  let n := (n + 4294967295) % 4294967296
  let n := n ||| (n >>> 1)
  let n := n ||| (n >>> 2)
  let n := n ||| (n >>> 4)
  let n := n ||| (n >>> 8)
  let n := n ||| (n >>> 16)
  (n + 1) % 4294967296

/-! ## Manager (internal/connection/manager.go)

The registered `onConnect` / `onDisconnect` hooks are observed as
emitted events; goroutine starts and logging have no state. -/

inductive GwEvent where
  | connected (c : Client)
  | disconnected (c : Client) (reason : String)
  deriving Repr, DecidableEq

structure Manager where
  shards : List Shard
  shardCount : Nat
  shardMask : Nat
  globalConns : Int
  maxConns : Int
  connectionsPerUser : Nat
  pongWait : Int
  deriving Repr, DecidableEq

/-- Embeds `NewManager` (manager.go:45): round the shard count up to a power of
two (64 when zero), build the shards, record the global ceiling. -/
def Manager.init (cfg : GWConfig) : Manager :=
  let sc0 := if cfg.shardCount = 0 then 64 else cfg.shardCount
  let sc := nextPowerOfTwoU32 sc0
  { shards := (List.range sc).map NewShard
    shardCount := sc
    shardMask := sc - 1
    globalConns := 0
    maxConns := cfg.globalConnections
    connectionsPerUser := cfg.connectionsPerUser
    pongWait := cfg.pongWait }

/-- Embeds `getShardID` (manager.go:249): FNV-1a of the key, masked. -/
def Manager.getShardID (m : Manager) (key : String) : Nat :=
  fnv32a key &&& m.shardMask

/-- Whether any shard's primary map holds the client id (the id produced
by `uuid.New()` is globally fresh; the reachability relation assumes
this for the ids it feeds to `AddConnection`). -/
def Manager.hasClient (m : Manager) (clientID : String) : Bool :=
  m.shards.any (fun s => (lookupA s.clients clientID).isSome)

/-- Embeds `GetClient` (manager.go:209). -/
def Manager.getClient (m : Manager) (clientID : String) : Option Client :=
  match m.shards.get? (m.getShardID clientID) with
  | none => none
  | some s => s.GetClient clientID

/-- Embeds `AddConnection` (manager.go:101): check the global ceiling, check
the IP limiter, create the client, add it to its shard, increment the
global counter, fire the on-connect hook.  The `IPRateLimiter` type is
not part of the tree; its verdict for this call enters as the Boolean
`ipAllow`. -/
def Manager.AddConnection (m : Manager) (clientID ip : String) (ipAllow : Bool)
    (rateLimit burst : Nat) (now : Int) : Option Client × Manager × List GwEvent :=
  if m.globalConns ≥ m.maxConns then (none, m, [])
  else if !ipAllow then (none, m, [])
  else
    let shardID := m.getShardID clientID
    let client := NewClient clientID ip shardID rateLimit burst now
    match m.shards.get? shardID with
    | none => (none, m, [])
    | some shard =>
      let m' := { m with shards := setAt m.shards shardID (shard.AddClient client),
                         globalConns := m.globalConns + 1 }
      (some client, m', [GwEvent.connected client])

/-- The live authenticated sessions of a user, summed over every
shard's primary map. -/
def Manager.liveAuthSessions (m : Manager) (userID : String) : Nat :=
  (m.shards.map (fun s => countU s.clients userID)).sum

/-- Modelled from the spec: the `UserRateLimiter` implementation is not
in the tree (only its constructor call at manager.go:76 is).  Spec §4.4:
"User concurrency — integer cap per user-id on currently open
authenticated sessions.  Consulted by the Registry at
`register_authenticated`." -/
def Manager.userLimiterAllow (m : Manager) (userID : String) : Bool :=
  decide (m.liveAuthSessions userID < m.connectionsPerUser)

inductive AuthResult where
  | ok
  | clientNotFound
  | userLimitExceeded
  deriving Repr, DecidableEq

/-- Embeds `AuthenticateClient` (manager.go:157): look the client up in its
shard, consult the user limiter, and on success register the client in
the user index.  A rejection returns an error to the caller and leaves
the manager unchanged. -/
def Manager.AuthenticateClient (m : Manager) (clientID userID deviceID : String) :
    AuthResult × Manager :=
  let shardID := m.getShardID clientID
  match m.shards.get? shardID with
  | none => (.clientNotFound, m)
  | some shard =>
    match lookupA shard.clients clientID with
    | none => (.clientNotFound, m)
    | some client =>
      if !m.userLimiterAllow userID then (.userLimitExceeded, m)
      else
        let shard' := shard.RegisterAuthenticatedClient client userID deviceID
        (.ok, { m with shards := setAt m.shards shardID shard' })

/-- Embeds `Manager.RemoveClient` (manager.go:227): remove from the shard,
and when a client was actually removed decrement the global counter,
close the client, and fire the on-disconnect hook. -/
def Manager.RemoveClient (m : Manager) (clientID reason : String) :
    Manager × List GwEvent :=
  let shardID := m.getShardID clientID
  match m.shards.get? shardID with
  | none => (m, [])
  | some shard =>
    match shard.RemoveClient clientID with
    | (none, _) => (m, [])
    | (some client, shard') =>
      ({ m with shards := setAt m.shards shardID shard',
                globalConns := m.globalConns - 1 },
       [GwEvent.disconnected (client.Close reason) reason])

/-- Modelled from the spec: the message router (`internal/messaging`,
referenced from `server/websocket.go` but not in the tree) drives
authentication and reacts to the registry's verdict.  Spec §4.4:
"Rejection closes the just-authenticated session with reason
`user_limit`." -/
def Manager.routerAuthenticate (m : Manager) (clientID userID deviceID : String) :
    Manager × List GwEvent :=
  match m.AuthenticateClient clientID userID deviceID with
  | (.ok, m') => (m', [])
  | (.clientNotFound, m') => (m', [])
  | (.userLimitExceeded, m') => m'.RemoveClient clientID "user_limit"

/-- The per-shard loop body of `cleanupInactiveConnections`
(manager.go:310): sweep each shard, decrement the counter once per
removed id, and fire the on-disconnect hook for a removed id only when
`shard.GetClient` still finds it — the lookup runs against the shard
the sweep has already deleted it from. -/
def cleanupShards (shards : List Shard) (now timeout : Int) :
    List Shard × Nat × List GwEvent :=
  match shards with
  | [] => ([], 0, [])
  | s :: rest =>
    let r := s.CleanupInactive now timeout
    let evs := r.1.filterMap
      (fun cid => (r.2.GetClient cid).map (fun c => GwEvent.disconnected c "inactive_timeout"))
    let rr := cleanupShards rest now timeout
    (r.2 :: rr.1, r.1.length + rr.2.1, evs ++ rr.2.2)

/-- Embeds `cleanupInactiveConnections` (manager.go:310), with
`timeout = PongWait * 2` (manager.go:311). -/
def Manager.cleanupInactiveConnections (m : Manager) (now : Int) :
    Manager × List GwEvent :=
  let timeout := m.pongWait * 2
  let r := cleanupShards m.shards now timeout
  ({ m with shards := r.1, globalConns := m.globalConns - r.2.1 }, r.2.2)

/-- Well-formedness of a user index: unique user keys and unique device
keys in each device map. -/
def UCWF (uc : List (String × List (String × String))) : Prop :=
  (uc.map Prod.fst).Nodup ∧ ∀ p ∈ uc, (p.2.map Prod.fst).Nodup

/-- Well-formedness of a shard: unique keys in the primary map and in
the user index (Go maps cannot hold duplicate keys). -/
def ShardWF (s : Shard) : Prop :=
  (s.clients.map Prod.fst).Nodup ∧ UCWF s.userClients

/-- Well-formedness of a manager: the shard vector has the announced
size, the mask is size minus one with a positive size, and every shard
is well-formed. -/
def ManagerWF (m : Manager) : Prop :=
  m.shards.length = m.shardCount ∧ m.shardMask + 1 = m.shardCount ∧
  ∀ s ∈ m.shards, ShardWF s

/-- The total number of clients held in the primary maps of all
shards. -/
def totalClients (m : Manager) : Nat :=
  (m.shards.map (fun s => s.clients.length)).sum

/-- Claim C5's invariant: the global counter equals the total size of
the primary maps. -/
def counterInv (m : Manager) : Prop :=
  m.globalConns = (totalClients m : Int)

/-- Claim C2's invariant: no user exceeds the concurrency cap. -/
def userCapInv (m : Manager) : Prop :=
  ∀ u, m.liveAuthSessions u ≤ m.connectionsPerUser

/-- The states of one gateway process: a freshly constructed manager,
evolved by connection adds (with the `uuid.New()` freshness of the
minted client id as a side condition), router-driven authentications,
removals, and cleanup sweeps.  The side condition on `init` says the
rounded shard count is nonzero, i.e. construction produced a usable
shard vector (Go would panic on the first index otherwise). -/
inductive Reachable : Manager → Prop where
  | init (cfg : GWConfig)
      (h : 0 < nextPowerOfTwoU32 (if cfg.shardCount = 0 then 64 else cfg.shardCount)) :
      Reachable (Manager.init cfg)
  | add (m : Manager) (cid ip : String) (ipAllow : Bool) (rl b : Nat) (now : Int)
      (hr : Reachable m) (hfresh : m.hasClient cid = false) :
      Reachable (m.AddConnection cid ip ipAllow rl b now).2.1
  | auth (m : Manager) (cid uid did : String) (hr : Reachable m) :
      Reachable (m.routerAuthenticate cid uid did).1
  | remove (m : Manager) (cid reason : String) (hr : Reachable m) :
      Reachable (m.RemoveClient cid reason).1
  | cleanup (m : Manager) (now : Int) (hr : Reachable m) :
      Reachable (m.cleanupInactiveConnections now).1

/-! ### The reachable-state invariant -/

/-- All invariants of one gateway process together. -/
def Invariant (m : Manager) : Prop := ManagerWF m ∧ counterInv m ∧ userCapInv m

/-! ## Protocol messages (pkg/protocol/messages.go) -/

structure BaseMessage where
  type : String
  messageId : String
  timestamp : Int
  deriving Repr, DecidableEq

/-! ## Redis pub/sub adapter (internal/pubsub/redis.go)

Registered handlers are identified by opaque numbers; `processMessage`
reports which handler fires on which message (or `none`).  An already
JSON-decoded envelope carries origin node id, timestamp and the inner
message. -/

structure Envelope where
  nodeId : String
  timestamp : Int
  message : BaseMessage
  deriving Repr, DecidableEq

structure RedisPubSub where
  channel : String
  nodeId : String
  handlers : List (String × Nat)
  deriving Repr, DecidableEq

/-- Embeds `Publish` (redis.go:81): wrap the message in an envelope stamped
with this node's id (the broker transport itself is external). -/
def RedisPubSub.Publish (r : RedisPubSub) (msg : BaseMessage) (now : Int) : Envelope :=
  { nodeId := r.nodeId, timestamp := now, message := msg }

/-- Embeds `RegisterHandler` (redis.go:123). -/
def RedisPubSub.RegisterHandler (r : RedisPubSub) (msgType : String) (h : Nat) :
    RedisPubSub :=
  { r with handlers := insertA r.handlers msgType h }

/-- Embeds `processMessage` (redis.go:147): drop envelopes stamped with our
own node id; otherwise dispatch the inner message to the handler
registered for its type, if any.  The result says which handler was
invoked with which message. -/
def RedisPubSub.processMessage (r : RedisPubSub) (envelope : Envelope) :
    Option (Nat × BaseMessage) :=
  if envelope.nodeId = r.nodeId then none
  else
    match lookupA r.handlers envelope.message.type with
    | none => none
    | some handler => some (handler, envelope.message)

/-! ## JWT authentication (internal/auth/jwt.go)

The HMAC signature is abstracted: a token records the key it was signed
with and its signing method, and signature verification succeeds
exactly when the method is HMAC and the key equals the validator's
secret.  `jwt/v5` claim validation checks `exp` (strict), `nbf` and
`iat` against the current time. -/

structure AuthConfig where
  jwtSecret : String
  tokenExpiry : Int
  deriving Repr, DecidableEq

structure JWTClaims where
  userId : String
  deviceId : String
  sessionId : String
  issuer : String
  expiresAt : Int
  issuedAt : Int
  notBefore : Int
  jwtId : String
  deriving Repr, DecidableEq

inductive SigningMethod where
  | hs256
  | hs384
  | hs512
  | rs256
  | sigNone
  deriving Repr, DecidableEq

def SigningMethod.isHMAC : SigningMethod → Bool
  | .hs256 => true
  | .hs384 => true
  | .hs512 => true
  | _ => false

structure Token where
  claims : JWTClaims
  method : SigningMethod
  key : String
  deriving Repr, DecidableEq

inductive AuthError where
  | invalidToken
  | invalidIssuer
  | missingUserID
  deriving Repr, DecidableEq

structure Authenticator where
  secret : String
  issuer : String
  expiry : Int
  deriving Repr, DecidableEq

/-- Embeds `NewAuthenticator` (jwt.go:40): the issuer is the literal
"websocket-gateway". -/
def NewAuthenticator (cfg : AuthConfig) : Authenticator :=
  { secret := cfg.jwtSecret, issuer := "websocket-gateway", expiry := cfg.tokenExpiry }

/-- Embeds `GenerateToken` (jwt.go:83): claims carry the user and device ids,
expiry `now + expiry`, issued-at and not-before `now`, the
authenticator's issuer, and are signed with HS256 under the secret. -/
def Authenticator.GenerateToken (a : Authenticator) (userID deviceID : String)
    (now : Int) : Token :=
  { claims := { userId := userID, deviceId := deviceID, sessionId := "",
                issuer := a.issuer, expiresAt := now + a.expiry,
                issuedAt := now, notBefore := now, jwtId := userID },
    method := .hs256, key := a.secret }

/-- Embeds `ValidateToken` (jwt.go:50): parsing rejects non-HMAC methods, bad
signatures, and time-invalid claims — `jwt/v5` validates `exp`
(strictly) and `nbf` by default — all wrapped into `ErrInvalidToken`;
then the issuer must match and the user id must be nonempty. -/
def Authenticator.ValidateToken (a : Authenticator) (t : Token) (now : Int) :
    Except AuthError JWTClaims :=
  if !t.method.isHMAC then .error .invalidToken
  else if t.key ≠ a.secret then .error .invalidToken
  else if ¬ (now < t.claims.expiresAt) then .error .invalidToken
  else if ¬ (t.claims.notBefore ≤ now) then .error .invalidToken
  else if t.claims.issuer ≠ a.issuer then .error .invalidIssuer
  else if t.claims.userId = "" then .error .missingUserID
  else .ok t.claims

/-! ## WebSocket server (internal/server/websocket.go) -/

/-- Embeds `checkIPLimit` (websocket.go:171): the check is a stub that admits
every IP ("For simplicity, we're using the connection manager's rate
limiter"). -/
def checkIPLimit (_ip : String) : Bool := true

structure ServeResult where
  httpStatus : Option Nat
  upgraded : Bool
  connClosedAfterUpgrade : Bool
  client : Option Client
  deriving Repr, DecidableEq

/-- Embeds `ServeHTTP` (websocket.go:134): run `checkIPLimit` before the
upgrade (a failure would answer 429); upgrade; then hand the upgraded
socket to `AddConnection`, closing it when that fails.  The upgrade
handshake outcome enters as `upgradeOk`, the IP token-bucket verdict
consumed inside `AddConnection` as `ipAllow`. -/
def ServeHTTP (m : Manager) (ip clientID : String) (upgradeOk ipAllow : Bool)
    (rl b : Nat) (now : Int) : ServeResult × Manager × List GwEvent :=
  if !checkIPLimit ip then
    ({ httpStatus := some 429, upgraded := false, connClosedAfterUpgrade := false,
       client := none }, m, [])
  else if !upgradeOk then
    ({ httpStatus := none, upgraded := false, connClosedAfterUpgrade := false,
       client := none }, m, [])
  else
    match m.AddConnection clientID ip ipAllow rl b now with
    | (none, m', evs) =>
      ({ httpStatus := none, upgraded := true, connClosedAfterUpgrade := true,
         client := none }, m', evs)
    | (some c, m', evs) =>
      ({ httpStatus := none, upgraded := true, connClosedAfterUpgrade := false,
         client := some c }, m', evs)

/-! ## Read pipeline frame handling (internal/connection/client.go 122-179)

`ReadPump` calls `SetReadLimit(1024 * 1024)` — a hardcoded 1 MiB, with
`config.server.max_message_size` unused.  An oversize frame makes
`ReadMessage` fail and the pump return; an admitted frame is dropped
with a `RATE_LIMIT_EXCEEDED` error frame when the per-client token
bucket refuses, and handed to the message handler otherwise. -/

inductive FrameOutcome where
  | delivered
  | errorFrame (code : String)
  | pumpClosed
  deriving Repr, DecidableEq

/-- The read limit hardcoded in `ReadPump` (client.go:131). -/
def readPumpLimit : Nat := 1024 * 1024

/-- What `ReadPump` does with one incoming frame of the given size,
`rateAllow` being the verdict of the per-client `rate.Limiter`. -/
def readPumpFrame (frameSize : Nat) (rateAllow : Bool) : FrameOutcome :=
  if frameSize > readPumpLimit then .pumpClosed
  else if !rateAllow then .errorFrame "RATE_LIMIT_EXCEEDED"
  else .delivered

/-! ## Derived lookups used by the claims -/

/-- Double lookup in a user index: user, then device. -/
def ucLookup (uc : List (String × List (String × String))) (userID deviceID : String) :
    Option String :=
  match lookupA uc userID with
  | none => none
  | some devices => lookupA devices deviceID

/-- The client id a shard's user index holds for a (user, device)
pair. -/
def userIndexLookup (s : Shard) (userID deviceID : String) : Option String :=
  ucLookup s.userClients userID deviceID

/-- The live sessions of one (user, device) pair held in a shard's
primary map. -/
def livePairCount (s : Shard) (userID deviceID : String) : Nat :=
  (s.clients.filter (fun p =>
    p.2.authenticated && p.2.userID == userID && p.2.deviceID == deviceID && !p.2.closing)).length

/-! ## Concrete states used to exercise the theorems -/

/-- A one-shard configuration with a user-concurrency cap of zero. -/
def cfgW : GWConfig :=
  { shardCount := 1, globalConnections := 10, connectionsPerUser := 0, pongWait := 60 }

def mW0 : Manager := Manager.init cfgW

/-- State `mW0` after accepting one connection with client id "A". -/
def mW1 : Manager := (mW0.AddConnection "A" "ip" true 0 0 0).2.1

/-! ## Claim C1 -/

def c1cA : Client := NewClient "A" "1.1.1.1" 0 0 0 0

def c1cB : Client := NewClient "B" "2.2.2.2" 0 0 0 0

/-- A shard where client A is registered as (u1, d1) and client B is
connected but not yet authenticated. -/
def c1shard : Shard :=
  (((NewShard 0).AddClient c1cA).AddClient c1cB).RegisterAuthenticatedClient c1cA "u1" "d1"

/-- State `c1shard` after client B also registers as (u1, d1) — the collision
the claim speaks about. -/
def c1shard2 : Shard := c1shard.RegisterAuthenticatedClient c1cB "u1" "d1"

/-! ## Claim C3 -/

/-- A session with a full outbound queue that is already closing: the
claim as stated demands `client_slow` here, but `WriteMessage` answers
`ErrClientClosed`. -/
def c3closingFull : Client :=
  { NewClient "A" "ip" 0 0 0 0 with send := List.replicate 256 [0], closing := true }

/-- A live session with a full outbound queue. -/
def c3full : Client :=
  { NewClient "A" "ip" 0 0 0 0 with send := List.replicate 256 [0] }

/-! ## Claim C7 -/

/-- A manager at its global connection ceiling. -/
def c7m : Manager :=
  { shards := [NewShard 0], shardCount := 1, shardMask := 0, globalConns := 1,
    maxConns := 1, connectionsPerUser := 5, pongWait := 60 }

/-! ## Claim C8 -/

/-- A manager holding one client whose last activity (time 0) is older
than `2 × pong_wait = 120` at sweep time 1000. -/
def c8m : Manager :=
  { shards := [{ NewShard 0 with clients := [("c1", NewClient "c1" "ip" 0 0 0 0)] }],
    shardCount := 1, shardMask := 0, globalConns := 1, maxConns := 10,
    connectionsPerUser := 5, pongWait := 60 }

/-! ## Theorems -/

theorem lookupA_insertA_self {V : Type} (l : List (String × V)) (k : String) (v : V) :
    lookupA (insertA l k v) k = some v := by
  induction l with
  | nil => simp [insertA, lookupA]
  | cons p t ih =>
    by_cases h : p.1 = k <;> simp [insertA, lookupA, h, ih]

theorem lookupA_insertA_ne {V : Type} (l : List (String × V)) (k k' : String) (v : V)
    (h : k ≠ k') : lookupA (insertA l k v) k' = lookupA l k' := by
  induction l with
  | nil => simp [insertA, lookupA, h]
  | cons p t ih =>
    by_cases hp : p.1 = k
    · simp [insertA, lookupA, hp, h]
    · by_cases hp' : p.1 = k' <;> simp [insertA, lookupA, hp, hp', ih, Ne.symm h]

theorem length_insertA_of_none {V : Type} (l : List (String × V)) (k : String) (v : V)
    (h : lookupA l k = none) : (insertA l k v).length = l.length + 1 := by
  induction l with
  | nil => simp [insertA]
  | cons p t ih =>
    by_cases hp : p.1 = k
    · simp [lookupA, hp] at h
    · simp [lookupA, hp] at h
      simp [insertA, hp, ih h]

theorem eraseA_of_none {V : Type} (l : List (String × V)) (k : String)
    (h : lookupA l k = none) : eraseA l k = l := by
  induction l with
  | nil => rfl
  | cons p t ih =>
    by_cases hp : p.1 = k
    · simp [lookupA, hp] at h
    · simp [lookupA, hp] at h
      simp [eraseA, hp, ih h]

theorem length_eraseA_of_some {V : Type} (l : List (String × V)) (k : String) (c : V)
    (h : lookupA l k = some c) : l.length = (eraseA l k).length + 1 := by
  induction l with
  | nil => simp [lookupA] at h
  | cons p t ih =>
    by_cases hp : p.1 = k
    · simp [eraseA, hp]
    · simp [lookupA, hp] at h
      simp [eraseA, hp, ih h]

theorem lookupA_eraseA_ne {V : Type} (l : List (String × V)) (k k' : String)
    (h : k ≠ k') : lookupA (eraseA l k) k' = lookupA l k' := by
  induction l with
  | nil => rfl
  | cons p t ih =>
    by_cases hp : p.1 = k
    · simp [eraseA, lookupA, hp, h]
    · by_cases hp' : p.1 = k' <;> simp [eraseA, lookupA, hp, hp', ih, Ne.symm h]

theorem lookupA_updateA_ne {V : Type} (l : List (String × V)) (k k' : String)
    (f : V → V) (h : k ≠ k') : lookupA (updateA l k f) k' = lookupA l k' := by
  induction l with
  | nil => rfl
  | cons p t ih =>
    by_cases hp : p.1 = k
    · simp [updateA, lookupA, hp, h]
    · by_cases hp' : p.1 = k' <;> simp [updateA, lookupA, hp, hp', ih, Ne.symm h]

theorem lookupA_updateA_self {V : Type} (l : List (String × V)) (k : String)
    (f : V → V) (c : V) (h : lookupA l k = some c) :
    lookupA (updateA l k f) k = some (f c) := by
  induction l with
  | nil => simp [lookupA] at h
  | cons p t ih =>
    by_cases hp : p.1 = k
    · simp [lookupA, hp] at h
      simp [updateA, lookupA, hp, h]
    · simp [lookupA, hp] at h
      simp [updateA, lookupA, hp, ih h]

theorem length_updateA {V : Type} (l : List (String × V)) (k : String) (f : V → V) :
    (updateA l k f).length = l.length := by
  induction l with
  | nil => rfl
  | cons p t ih =>
    by_cases hp : p.1 = k <;> simp [updateA, hp, ih]

theorem keys_updateA {V : Type} (l : List (String × V)) (k : String) (f : V → V) :
    (updateA l k f).map Prod.fst = l.map Prod.fst := by
  induction l with
  | nil => rfl
  | cons p t ih =>
    by_cases hp : p.1 = k <;> simp [updateA, hp, ih]

theorem not_mem_keys_of_lookupA_none {V : Type} (l : List (String × V)) (k : String)
    (h : lookupA l k = none) : k ∉ l.map Prod.fst := by
  induction l with
  | nil => simp
  | cons p t ih =>
    by_cases hp : p.1 = k
    · simp [lookupA, hp] at h
    · simp [lookupA, hp] at h
      simp [ih h, Ne.symm hp]

/-- Shape of the key list after a Go map write when the key is fresh:
the new key is appended. -/
theorem keys_insertA_of_none {V : Type} (l : List (String × V)) (k : String) (v : V)
    (h : lookupA l k = none) :
    (insertA l k v).map Prod.fst = l.map Prod.fst ++ [k] := by
  induction l with
  | nil => simp [insertA]
  | cons p t ih =>
    by_cases hp : p.1 = k
    · simp [lookupA, hp] at h
    · simp [lookupA, hp] at h
      simp [insertA, hp, ih h]

/-- Shape of the key list after a Go map write when the key is present:
the key list is unchanged. -/
theorem keys_insertA_of_some {V : Type} (l : List (String × V)) (k : String) (v c : V)
    (h : lookupA l k = some c) :
    (insertA l k v).map Prod.fst = l.map Prod.fst := by
  induction l with
  | nil => simp [lookupA] at h
  | cons p t ih =>
    by_cases hp : p.1 = k
    · simp [insertA, hp]
    · simp [lookupA, hp] at h
      simp [insertA, hp, ih h]

theorem nodup_keys_insertA {V : Type} (l : List (String × V)) (k : String) (v : V)
    (h : (l.map Prod.fst).Nodup) : ((insertA l k v).map Prod.fst).Nodup := by
  cases hl : lookupA l k with
  | none =>
    rw [keys_insertA_of_none l k v hl]
    simp [List.nodup_append, h]
    exact fun x hx =>
      not_mem_keys_of_lookupA_none l k hl (List.mem_map_of_mem Prod.fst hx)
  | some c =>
    rw [keys_insertA_of_some l k v c hl]
    exact h

theorem keys_eraseA_sublist {V : Type} (l : List (String × V)) (k : String) :
    ((eraseA l k).map Prod.fst).Sublist (l.map Prod.fst) := by
  induction l with
  | nil => simp [eraseA]
  | cons p t ih =>
    by_cases hp : p.1 = k
    · simp [eraseA, hp]
    · simpa [eraseA, hp] using ih.cons₂ p.1

theorem nodup_keys_eraseA {V : Type} (l : List (String × V)) (k : String)
    (h : (l.map Prod.fst).Nodup) : ((eraseA l k).map Prod.fst).Nodup :=
  h.sublist (keys_eraseA_sublist l k)

theorem lookupA_none_of_not_mem_keys {V : Type} (l : List (String × V)) (k : String)
    (h : k ∉ l.map Prod.fst) : lookupA l k = none := by
  induction l with
  | nil => rfl
  | cons p t ih =>
    rw [List.map_cons] at h
    have hp : ¬p.1 = k := fun hq => h (by simp [hq])
    have ht : k ∉ t.map Prod.fst := fun hm => h (by simp [hm])
    simp [lookupA, hp, ih ht]

theorem lookupA_eraseA_self {V : Type} (l : List (String × V)) (k : String)
    (h : (l.map Prod.fst).Nodup) : lookupA (eraseA l k) k = none := by
  induction l with
  | nil => rfl
  | cons p t ih =>
    rw [List.map_cons, List.nodup_cons] at h
    by_cases hp : p.1 = k
    · subst hp
      simp only [eraseA, if_pos rfl]
      exact lookupA_none_of_not_mem_keys t p.1 h.1
    · simp [eraseA, lookupA, hp, ih h.2]

/-- A value reachable through `insertA` comes either from the inserted
value or from the original list. -/
theorem mem_values_insertA {V : Type} (l : List (String × V)) (k : String) (v : V)
    (p : String × V) (h : p ∈ insertA l k v) : p.2 = v ∨ p ∈ l := by
  induction l with
  | nil => simp [insertA] at h; simp [h]
  | cons q t ih =>
    by_cases hq : q.1 = k
    · simp [insertA, hq] at h
      rcases h with h | h
      · left; simp [h]
      · right; simp [h]
    · simp [insertA, hq] at h
      rcases h with h | h
      · right; simp [h]
      · rcases ih h with h' | h'
        · left; exact h'
        · right; simp [h']

theorem mem_eraseA_subset {V : Type} (l : List (String × V)) (k : String)
    (p : String × V) (h : p ∈ eraseA l k) : p ∈ l := by
  induction l with
  | nil => simp [eraseA] at h
  | cons q t ih =>
    by_cases hq : q.1 = k
    · simp [eraseA, hq] at h
      simp [h]
    · simp [eraseA, hq] at h
      rcases h with h | h
      · simp [h]
      · simp [ih h]

/-! ### `setAt` lemmas -/

theorem length_setAt {α : Type} (l : List α) (i : Nat) (v : α) :
    (setAt l i v).length = l.length := by
  induction l generalizing i with
  | nil => rfl
  | cons a t ih =>
    cases i with
    | zero => simp [setAt]
    | succ n => simp [setAt, ih]

theorem get_setAt_self {α : Type} (l : List α) (i : Nat) (v : α) (h : i < l.length) :
    (setAt l i v).get? i = some v := by
  induction l generalizing i with
  | nil => simp at h
  | cons a t ih =>
    cases i with
    | zero => simp [setAt]
    | succ n =>
      simpa [setAt] using ih n (by simpa using h)

theorem mem_setAt {α : Type} (l : List α) (i : Nat) (v : α) (x : α)
    (h : x ∈ setAt l i v) : x ∈ l ∨ x = v := by
  induction l generalizing i with
  | nil => simp [setAt] at h
  | cons a t ih =>
    cases i with
    | zero =>
      simp [setAt] at h
      rcases h with h | h
      · right; exact h
      · left; simp [h]
    | succ n =>
      simp [setAt] at h
      rcases h with h | h
      · left; simp [h]
      · rcases ih n h with h' | h'
        · left; simp [h']
        · right; exact h'

/-- The key accounting lemma for the global counter: replacing the
shard at index `i` changes a summed statistic by exactly the change in
that shard. -/
theorem sum_map_setAt {α : Type} (g : α → Nat) (l : List α) (i : Nat) (v : α)
    (w : α) (hw : l.get? i = some w) :
    ((setAt l i v).map g).sum + g w = (l.map g).sum + g v := by
  induction l generalizing i with
  | nil => simp at hw
  | cons a t ih =>
    cases i with
    | zero =>
      simp at hw
      subst hw
      simp [setAt]
      omega
    | succ n =>
      simp at hw
      have := ih n (by simpa using hw)
      simp [setAt]
      omega

theorem countU_updateA_le (l : List (String × Client)) (k : String) (f : Client → Client)
    (u : String) : countU (updateA l k f) u ≤ countU l u + 1 := by
  induction l with
  | nil => simp [updateA, countU]
  | cons p t ih =>
    by_cases hp : p.1 = k
    · by_cases hc : (f p.2).authenticated && (f p.2).userID == u <;>
        by_cases ho : p.2.authenticated && p.2.userID == u <;>
          simp [updateA, countU, hp, hc, ho, List.filter] <;> omega
    · by_cases ho : p.2.authenticated && p.2.userID == u <;>
        · simp only [updateA, if_neg hp, countU, List.filter, ho] at *
          simp [ho] at *
          omega

theorem countU_updateA_of_not (l : List (String × Client)) (k : String)
    (f : Client → Client) (u : String)
    (hf : ∀ v, ((f v).authenticated && (f v).userID == u) = false) :
    countU (updateA l k f) u ≤ countU l u := by
  induction l with
  | nil => simp [updateA, countU]
  | cons p t ih =>
    by_cases hp : p.1 = k
    · by_cases ho : p.2.authenticated && p.2.userID == u <;>
        simp [updateA, countU, hp, hf, ho, List.filter] <;> omega
    · by_cases ho : p.2.authenticated && p.2.userID == u <;>
        · simp only [updateA, if_neg hp, countU, List.filter, ho] at *
          simp [ho] at *
          omega

theorem countU_eraseA_le (l : List (String × Client)) (k : String) (u : String) :
    countU (eraseA l k) u ≤ countU l u := by
  induction l with
  | nil => simp [eraseA, countU]
  | cons p t ih =>
    by_cases hp : p.1 = k
    · by_cases ho : p.2.authenticated && p.2.userID == u <;>
        simp [eraseA, countU, hp, ho, List.filter] <;> omega
    · by_cases ho : p.2.authenticated && p.2.userID == u <;>
        · simp only [eraseA, if_neg hp, countU, List.filter, ho] at *
          simp [ho] at *
          omega

theorem countU_filter_le (l : List (String × Client)) (p : String × Client → Bool)
    (u : String) : countU (l.filter p) u ≤ countU l u := by
  have hsub : ((l.filter p).filter (fun q => q.2.authenticated && q.2.userID == u)).Sublist
      (l.filter (fun q => q.2.authenticated && q.2.userID == u)) :=
    (List.filter_sublist l).filter _
  exact hsub.length_le

/-- Partition of a list length by a Boolean predicate, used for the
counter bookkeeping of the cleanup sweep. -/
theorem length_filter_partition {α : Type} (l : List α) (p : α → Bool) :
    (l.filter p).length + (l.filter (fun a => !(p a))).length = l.length := by
  induction l with
  | nil => simp
  | cons a t ih =>
    by_cases ha : p a <;> simp [ha, List.filter] <;> omega

/-! ## Well-formedness and reachable states -/

theorem lookupA_mem {V : Type} (l : List (String × V)) (k : String) (v : V)
    (h : lookupA l k = some v) : (k, v) ∈ l := by
  induction l with
  | nil => simp [lookupA] at h
  | cons p t ih =>
    by_cases hp : p.1 = k
    · simp [lookupA, hp] at h
      subst hp
      subst h
      exact List.mem_cons_self p t
    · simp [lookupA, hp] at h
      right
      exact ih h

theorem getShardID_lt (m : Manager) (key : String) (hWF : ManagerWF m) :
    m.getShardID key < m.shards.length := by
  have h1 : m.getShardID key ≤ m.shardMask := Nat.and_le_right
  obtain ⟨hl, hm, _⟩ := hWF
  omega

theorem hasClient_false_lookup (m : Manager) (cid : String)
    (h : m.hasClient cid = false) :
    ∀ s ∈ m.shards, lookupA s.clients cid = none := by
  intro s hs
  have := List.any_eq_false.mp h s hs
  cases hl : lookupA s.clients cid with
  | none => rfl
  | some c => rw [hl] at this; simp at this

theorem ShardWF_AddClient (s : Shard) (client : Client) (h : ShardWF s) :
    ShardWF (s.AddClient client) := by
  exact ⟨nodup_keys_insertA s.clients client.id client h.1, h.2⟩

theorem UCWF_removeUserDevice (uc : List (String × List (String × String)))
    (uid did : String) (h : UCWF uc) : UCWF (removeUserDevice uc uid did) := by
  unfold removeUserDevice
  cases hl : lookupA uc uid with
  | none => exact h
  | some devices =>
    by_cases he : (eraseA devices did).isEmpty
    · simp only [he, if_true]
      refine ⟨nodup_keys_eraseA uc uid h.1, fun p hp => h.2 p (mem_eraseA_subset uc uid p hp)⟩
    · simp only [he, if_false]
      refine ⟨nodup_keys_insertA uc uid _ h.1, fun p hp => ?_⟩
      rcases mem_values_insertA uc uid (eraseA devices did) p hp with h' | h'
      · rw [h']
        exact nodup_keys_eraseA devices did (h.2 (uid, devices) (lookupA_mem uc uid devices hl))
      · exact h.2 p h'

theorem ShardWF_dropClient (s : Shard) (client : Client) (cid : String)
    (h : ShardWF s) : ShardWF (s.dropClient client cid) := by
  refine ⟨nodup_keys_eraseA s.clients cid h.1, ?_⟩
  unfold Shard.dropClient
  simp only
  by_cases hu : client.userID ≠ ""
  · rw [if_pos hu]
    exact UCWF_removeUserDevice s.userClients client.userID client.deviceID h.2
  · rw [if_neg hu]
    exact h.2

theorem ShardWF_Register (s : Shard) (client : Client) (uid did : String)
    (h : ShardWF s) : ShardWF (s.RegisterAuthenticatedClient client uid did) := by
  unfold Shard.RegisterAuthenticatedClient
  simp only
  constructor
  · rw [keys_updateA]
    exact h.1
  · refine ⟨nodup_keys_insertA s.userClients uid _ h.2.1, fun p hp => ?_⟩
    rcases mem_values_insertA s.userClients uid _ p hp with h' | h'
    · rw [h']
      cases hl : lookupA s.userClients uid with
      | none => simp [hl, insertA]
      | some d =>
        simp only [hl]
        exact nodup_keys_insertA d did client.id
          (h.2.2 (uid, d) (lookupA_mem s.userClients uid d hl))
    · exact h.2.2 p h'

theorem ShardWF_Cleanup (s : Shard) (now timeout : Int) (h : ShardWF s) :
    ShardWF (s.CleanupInactive now timeout).2 := by
  unfold Shard.CleanupInactive
  simp only
  constructor
  · exact h.1.sublist ((List.filter_sublist s.clients).map Prod.fst)
  · have : ∀ (stale : List (String × Client)) (uc : List (String × List (String × String))),
        UCWF uc → UCWF (stale.foldl
          (fun uc p => if p.2.userID ≠ "" then removeUserDevice uc p.2.userID p.2.deviceID else uc) uc) := by
      intro stale
      induction stale with
      | nil => intro uc h; exact h
      | cons p t ih =>
        intro uc huc
        simp only [List.foldl_cons]
        apply ih
        by_cases hu : p.2.userID ≠ ""
        · rw [if_pos hu]
          exact UCWF_removeUserDevice uc p.2.userID p.2.deviceID huc
        · rw [if_neg hu]
          exact huc
    exact this _ s.userClients h.2

/-! ### Counter and user-cap bookkeeping -/

theorem countU_insertA_le (l : List (String × Client)) (k : String) (c : Client)
    (u : String) (hc : (c.authenticated && c.userID == u) = false) :
    countU (insertA l k c) u ≤ countU l u + 0 + (if c.authenticated && c.userID == u then 1 else 0) := by
  simp [hc]
  induction l with
  | nil => simp [insertA, countU, List.filter, hc]
  | cons p t ih =>
    by_cases hp : p.1 = k
    · by_cases ho : p.2.authenticated && p.2.userID == u <;>
        simp [insertA, countU, hp, hc, ho, List.filter] <;> omega
    · by_cases ho : p.2.authenticated && p.2.userID == u <;>
        · simp only [insertA, if_neg hp, countU, List.filter, ho] at *
          simp [ho] at *
          omega

/-- Size of a shard's primary map after `AddClient` with a fresh id. -/
theorem AddClient_length (s : Shard) (c : Client)
    (h : lookupA s.clients c.id = none) :
    (s.AddClient c).clients.length = s.clients.length + 1 := by
  simp [Shard.AddClient, length_insertA_of_none s.clients c.id c h]

theorem CleanupInactive_length (s : Shard) (now timeout : Int) :
    (s.CleanupInactive now timeout).2.clients.length +
      (s.CleanupInactive now timeout).1.length = s.clients.length := by
  unfold Shard.CleanupInactive
  simp only [List.length_map]
  have := length_filter_partition s.clients (fun p => staleAt now timeout p.2)
  omega

theorem cleanupShards_sum (shards : List Shard) (now timeout : Int) :
    (((cleanupShards shards now timeout).1.map (fun s => s.clients.length)).sum) +
      (cleanupShards shards now timeout).2.1 =
    ((shards.map (fun s => s.clients.length)).sum) := by
  induction shards with
  | nil => simp [cleanupShards]
  | cons s rest ih =>
    simp only [cleanupShards, List.map_cons, List.sum_cons]
    have := CleanupInactive_length s now timeout
    omega

theorem cleanupShards_countU_le (shards : List Shard) (now timeout : Int) (u : String) :
    (((cleanupShards shards now timeout).1.map (fun s => countU s.clients u)).sum) ≤
    ((shards.map (fun s => countU s.clients u)).sum) := by
  induction shards with
  | nil => simp [cleanupShards]
  | cons s rest ih =>
    simp only [cleanupShards, List.map_cons, List.sum_cons]
    have hh : countU (s.CleanupInactive now timeout).2.clients u ≤ countU s.clients u := by
      unfold Shard.CleanupInactive
      simp only
      exact countU_filter_le s.clients _ u
    omega

theorem cleanupShards_length (shards : List Shard) (now timeout : Int) :
    (cleanupShards shards now timeout).1.length = shards.length := by
  induction shards with
  | nil => simp [cleanupShards]
  | cons s rest ih => simp [cleanupShards, ih]

theorem cleanupShards_WF (shards : List Shard) (now timeout : Int)
    (h : ∀ s ∈ shards, ShardWF s) :
    ∀ s' ∈ (cleanupShards shards now timeout).1, ShardWF s' := by
  induction shards with
  | nil => simp [cleanupShards]
  | cons s rest ih =>
    intro s' hs'
    simp only [cleanupShards, List.mem_cons] at hs'
    rcases hs' with hs' | hs'
    · rw [hs']
      exact ShardWF_Cleanup s now timeout (h s (by simp))
    · exact ih (fun x hx => h x (by simp [hx])) s' hs'

theorem Invariant_init (cfg : GWConfig)
    (h : 0 < nextPowerOfTwoU32 (if cfg.shardCount = 0 then 64 else cfg.shardCount)) :
    Invariant (Manager.init cfg) := by
  refine ⟨⟨?_, ?_, ?_⟩, ?_, ?_⟩
  · simp [Manager.init]
  · simp [Manager.init]
    omega
  · intro s hs
    simp [Manager.init] at hs
    obtain ⟨i, _, rfl⟩ := hs
    exact ⟨List.nodup_nil, List.nodup_nil, by simp [NewShard]⟩
  · unfold counterInv
    have h0 : totalClients (Manager.init cfg) = 0 := by
      unfold totalClients
      apply List.sum_eq_zero
      intro x hx
      rw [List.mem_map] at hx
      obtain ⟨s, hs, rfl⟩ := hx
      have : s ∈ (List.range _).map NewShard := hs
      rw [List.mem_map] at this
      obtain ⟨i, _, rfl⟩ := this
      rfl
    rw [h0]
    rfl
  · intro u
    show ((Manager.init cfg).shards.map (fun s => countU s.clients u)).sum ≤ _
    have h0 : ((Manager.init cfg).shards.map (fun s => countU s.clients u)).sum = 0 := by
      apply List.sum_eq_zero
      intro x hx
      rw [List.mem_map] at hx
      obtain ⟨s, hs, rfl⟩ := hx
      have : s ∈ (List.range _).map NewShard := hs
      rw [List.mem_map] at this
      obtain ⟨i, _, rfl⟩ := this
      rfl
    omega

theorem Invariant_AddConnection (m : Manager) (cid ip : String) (ipAllow : Bool)
    (rl b : Nat) (now : Int) (hfresh : m.hasClient cid = false) (hI : Invariant m) :
    Invariant (m.AddConnection cid ip ipAllow rl b now).2.1 := by
  obtain ⟨hWF, hC, hU⟩ := hI
  unfold Manager.AddConnection
  by_cases hg : m.globalConns ≥ m.maxConns
  · simp only [if_pos hg]
    exact ⟨hWF, hC, hU⟩
  · rw [if_neg hg]
    by_cases hip : ipAllow
    · simp only [hip, Bool.not_true, if_neg (by simp : ¬(false = true))]
      cases hget : m.shards.get? (m.getShardID cid) with
      | none => exact ⟨hWF, hC, hU⟩
      | some shard =>
        simp only
        have hmem : shard ∈ m.shards := List.get?_mem hget
        have hlook : lookupA shard.clients cid = none :=
          hasClient_false_lookup m cid hfresh shard hmem
        set client := NewClient cid ip (m.getShardID cid) rl b now with hclient
        have hsum := sum_map_setAt (fun s => s.clients.length) m.shards (m.getShardID cid)
          (shard.AddClient client) shard hget
        have hlen : (shard.AddClient client).clients.length = shard.clients.length + 1 :=
          AddClient_length shard client hlook
        refine ⟨⟨?_, ?_, ?_⟩, ?_, ?_⟩
        · simp [length_setAt, hWF.1]
        · exact hWF.2.1
        · intro s hs
          rcases mem_setAt _ _ _ _ hs with h' | h'
          · exact hWF.2.2 s h'
          · rw [h']
            exact ShardWF_AddClient shard client (hWF.2.2 shard hmem)
        · simp only [counterInv, totalClients] at hC ⊢
          simp only at hsum
          omega
        · intro u
          have hsumU := sum_map_setAt (fun s => countU s.clients u) m.shards
            (m.getShardID cid) (shard.AddClient client) shard hget
          simp only at hsumU
          have hcln : (client.authenticated && client.userID == u) = false := by
            simp [hclient, NewClient]
          have hle : countU (shard.AddClient client).clients u ≤ countU shard.clients u := by
            have := countU_insertA_le shard.clients client.id client u hcln
            simpa [Shard.AddClient, hcln] using this
          have hUu := hU u
          simp only [Manager.liveAuthSessions] at hUu ⊢
          omega
    · simp only [hip]
      exact ⟨hWF, hC, hU⟩

theorem Invariant_RemoveClient (m : Manager) (cid reason : String) (hI : Invariant m) :
    Invariant (m.RemoveClient cid reason).1 := by
  obtain ⟨hWF, hC, hU⟩ := hI
  simp only [Manager.RemoveClient]
  cases hget : m.shards.get? (m.getShardID cid) with
  | none => exact ⟨hWF, hC, hU⟩
  | some shard =>
    simp only [Shard.RemoveClient]
    cases hl : lookupA shard.clients cid with
    | none => exact ⟨hWF, hC, hU⟩
    | some client =>
      simp only
      have hmem : shard ∈ m.shards := List.get?_mem hget
      have hWFs' : ShardWF (shard.dropClient client cid) :=
        ShardWF_dropClient shard client cid (hWF.2.2 shard hmem)
      have hlen : shard.clients.length = (shard.dropClient client cid).clients.length + 1 := by
        simp only [Shard.dropClient]
        exact length_eraseA_of_some shard.clients cid client hl
      have hsum := sum_map_setAt (fun s => s.clients.length) m.shards (m.getShardID cid)
        (shard.dropClient client cid) shard hget
      simp only at hsum
      refine ⟨⟨?_, ?_, ?_⟩, ?_, ?_⟩
      · simp [length_setAt, hWF.1]
      · exact hWF.2.1
      · intro s hs
        rcases mem_setAt _ _ _ _ hs with h' | h'
        · exact hWF.2.2 s h'
        · rw [h']
          exact hWFs'
      · simp only [counterInv, totalClients] at hC ⊢
        omega
      · intro u
        have hsumU := sum_map_setAt (fun s => countU s.clients u) m.shards
          (m.getShardID cid) (shard.dropClient client cid) shard hget
        simp only at hsumU
        have hUu := hU u
        simp only [Manager.liveAuthSessions] at hUu ⊢
        have hcu : countU (shard.dropClient client cid).clients u ≤ countU shard.clients u := by
          simp only [Shard.dropClient]
          exact countU_eraseA_le shard.clients cid u
        omega

theorem Invariant_AuthenticateClient (m : Manager) (cid uid did : String)
    (hI : Invariant m) : Invariant (m.AuthenticateClient cid uid did).2 := by
  obtain ⟨hWF, hC, hU⟩ := hI
  simp only [Manager.AuthenticateClient]
  cases hget : m.shards.get? (m.getShardID cid) with
  | none => exact ⟨hWF, hC, hU⟩
  | some shard =>
    simp only
    cases hl : lookupA shard.clients cid with
    | none => exact ⟨hWF, hC, hU⟩
    | some client =>
      simp only
      by_cases hallow : m.userLimiterAllow uid
      · rw [if_neg (by simp [hallow])]
        have hmem : shard ∈ m.shards := List.get?_mem hget
        set shard' := shard.RegisterAuthenticatedClient client uid did with hshard'
        have hWFs' : ShardWF shard' := ShardWF_Register shard client uid did (hWF.2.2 shard hmem)
        have hlen : shard'.clients.length = shard.clients.length := by
          rw [hshard']
          unfold Shard.RegisterAuthenticatedClient
          simp only
          exact length_updateA shard.clients client.id _
        have hsum := sum_map_setAt (fun s => s.clients.length) m.shards (m.getShardID cid)
          shard' shard hget
        simp only at hsum
        refine ⟨⟨?_, ?_, ?_⟩, ?_, ?_⟩
        · simp [length_setAt, hWF.1]
        · exact hWF.2.1
        · intro s hs
          rcases mem_setAt _ _ _ _ hs with h' | h'
          · exact hWF.2.2 s h'
          · rw [h']
            exact hWFs'
        · simp only [counterInv, totalClients] at hC ⊢
          omega
        · intro u
          have hsumU := sum_map_setAt (fun s => countU s.clients u) m.shards
            (m.getShardID cid) shard' shard hget
          simp only at hsumU
          have hUu := hU u
          simp only [Manager.liveAuthSessions] at hUu ⊢
          by_cases hu : u = uid
          · subst hu
            have hcap : m.liveAuthSessions u < m.connectionsPerUser := by
              have := of_decide_eq_true hallow
              exact this
            simp only [Manager.liveAuthSessions] at hcap
            have hcu : countU shard'.clients u ≤ countU shard.clients u + 1 := by
              rw [hshard']
              unfold Shard.RegisterAuthenticatedClient
              simp only
              exact countU_updateA_le shard.clients client.id _ u
            omega
          · have hcu : countU shard'.clients u ≤ countU shard.clients u := by
              rw [hshard']
              unfold Shard.RegisterAuthenticatedClient
              simp only
              apply countU_updateA_of_not
              intro v
              simp [Client.SetAuthenticated]
              exact fun he => hu he.symm
            omega
      · rw [if_pos (by simp [hallow])]
        exact ⟨hWF, hC, hU⟩

theorem Invariant_routerAuthenticate (m : Manager) (cid uid did : String)
    (hI : Invariant m) : Invariant (m.routerAuthenticate cid uid did).1 := by
  have hA := Invariant_AuthenticateClient m cid uid did hI
  unfold Manager.routerAuthenticate
  cases hres : m.AuthenticateClient cid uid did with
  | mk r m' =>
    rw [hres] at hA
    cases r with
    | ok => exact hA
    | clientNotFound => exact hA
    | userLimitExceeded => exact Invariant_RemoveClient m' cid "user_limit" hA

theorem Invariant_cleanup (m : Manager) (now : Int) (hI : Invariant m) :
    Invariant (m.cleanupInactiveConnections now).1 := by
  obtain ⟨hWF, hC, hU⟩ := hI
  unfold Manager.cleanupInactiveConnections
  simp only
  have hsum := cleanupShards_sum m.shards now (m.pongWait * 2)
  refine ⟨⟨?_, ?_, ?_⟩, ?_, ?_⟩
  · simp [cleanupShards_length, hWF.1]
  · exact hWF.2.1
  · exact cleanupShards_WF m.shards now (m.pongWait * 2) hWF.2.2
  · simp only [counterInv, totalClients] at hC ⊢
    omega
  · intro u
    have hle := cleanupShards_countU_le m.shards now (m.pongWait * 2) u
    have hUu := hU u
    simp only [Manager.liveAuthSessions] at hUu ⊢
    omega

/-- Every reachable manager state is well-formed, keeps the global
counter equal to the summed shard sizes, and keeps every user within
the concurrency cap. -/
theorem reachable_inv (m : Manager) (h : Reachable m) : Invariant m := by
  induction h with
  | init cfg h => exact Invariant_init cfg h
  | add m cid ip ipAllow rl b now hr hfresh ih =>
    exact Invariant_AddConnection m cid ip ipAllow rl b now hfresh ih
  | auth m cid uid did hr ih => exact Invariant_routerAuthenticate m cid uid did ih
  | remove m cid reason hr ih => exact Invariant_RemoveClient m cid reason ih
  | cleanup m now hr ih => exact Invariant_cleanup m now ih

/-! ## Helper lemmas about removal -/

theorem ucLookup_removeUserDevice_self (uc : List (String × List (String × String)))
    (uid did : String) (h : UCWF uc) :
    ucLookup (removeUserDevice uc uid did) uid did = none := by
  unfold removeUserDevice
  cases hl : lookupA uc uid with
  | none => simp [ucLookup, hl]
  | some devices =>
    simp only
    by_cases he : (eraseA devices did).isEmpty
    · rw [if_pos he]
      simp [ucLookup, lookupA_eraseA_self uc uid h.1]
    · rw [if_neg he]
      simp only [ucLookup, lookupA_insertA_self]
      exact lookupA_eraseA_self devices did (h.2 (uid, devices) (lookupA_mem uc uid devices hl))

theorem getClient_some (m : Manager) (cid : String) (c : Client)
    (h : m.getClient cid = some c) :
    ∃ shard, m.shards.get? (m.getShardID cid) = some shard ∧
      lookupA shard.clients cid = some c := by
  unfold Manager.getClient at h
  cases hget : m.shards.get? (m.getShardID cid) with
  | none => rw [hget] at h; simp at h
  | some s =>
    rw [hget] at h
    exact ⟨s, rfl, h⟩

/-- Explicit shape of a successful `Manager.RemoveClient`. -/
theorem RemoveClient_found (m : Manager) (cid reason : String) (c : Client) (shard : Shard)
    (hget : m.shards.get? (m.getShardID cid) = some shard)
    (hl : lookupA shard.clients cid = some c) :
    m.RemoveClient cid reason =
      ({ m with shards := setAt m.shards (m.getShardID cid) (shard.dropClient c cid),
                globalConns := m.globalConns - 1 },
       [GwEvent.disconnected (c.Close reason) reason]) := by
  simp only [Manager.RemoveClient, hget, Shard.RemoveClient, hl]

/-- After a removal the client is gone from the primary map and from
the user index, and a second removal is a no-op. -/
theorem RemoveClient_gone (m : Manager) (cid reason : String) (c : Client) (shard : Shard)
    (hWF : ManagerWF m)
    (hget : m.shards.get? (m.getShardID cid) = some shard)
    (hl : lookupA shard.clients cid = some c) :
    ((m.RemoveClient cid reason).1.getClient cid = none) ∧
    ((m.RemoveClient cid reason).1.shards.get? (m.getShardID cid) =
        some (shard.dropClient c cid)) ∧
    (userIndexLookup (shard.dropClient c cid) c.userID c.deviceID = none ∨ c.userID = "") ∧
    (∀ reason2, (m.RemoveClient cid reason).1.RemoveClient cid reason2 =
        ((m.RemoveClient cid reason).1, [])) := by
  have hmem : shard ∈ m.shards := List.get?_mem hget
  have hSWF : ShardWF shard := hWF.2.2 shard hmem
  have hrf := RemoveClient_found m cid reason c shard hget hl
  have hlt : m.getShardID cid < m.shards.length := getShardID_lt m cid hWF
  set m1 := (m.RemoveClient cid reason).1 with hm1
  have hsid : m1.getShardID cid = m.getShardID cid := by
    rw [hm1, hrf]
    rfl
  have hget' : m1.shards.get? (m.getShardID cid) = some (shard.dropClient c cid) := by
    rw [hm1, hrf]
    exact get_setAt_self m.shards (m.getShardID cid) (shard.dropClient c cid) hlt
  have hlnone : lookupA (shard.dropClient c cid).clients cid = none := by
    simp only [Shard.dropClient]
    exact lookupA_eraseA_self shard.clients cid hSWF.1
  refine ⟨?_, hget', ?_, ?_⟩
  · unfold Manager.getClient
    rw [hsid, hget']
    exact hlnone
  · by_cases hu : c.userID = ""
    · right; exact hu
    · left
      simp only [Shard.dropClient, userIndexLookup]
      rw [if_pos hu]
      exact ucLookup_removeUserDevice_self shard.userClients c.userID c.deviceID hSWF.2
  · intro reason2
    simp only [Manager.RemoveClient, hsid, hget', Shard.RemoveClient, hlnone]

theorem reachable_mW1 : Reachable mW1 :=
  Reachable.add mW0 "A" "ip" true 0 0 0 (Reachable.init cfgW (by decide)) (by decide)

/-! ## Claim C5 -/

/-- C5: at every reachable state the manager's global connection
counter equals the sum over all shards of the number of clients in the
shard's primary client map; the counter is incremented exactly on a
successful add, unchanged on a failed add, decremented exactly once per
removed client, unchanged when there is nothing to remove, and after a
cleanup sweep it again equals the summed shard sizes. -/
theorem global_counter_matches_shards (m : Manager) (hm : Reachable m) :
    (m.globalConns = (totalClients m : Int)) ∧
    (∀ cid ip ipAllow rl b now,
      ((m.AddConnection cid ip ipAllow rl b now).1.isSome →
        (m.AddConnection cid ip ipAllow rl b now).2.1.globalConns = m.globalConns + 1) ∧
      ((m.AddConnection cid ip ipAllow rl b now).1 = none →
        (m.AddConnection cid ip ipAllow rl b now).2.1 = m)) ∧
    (∀ cid reason,
      ((m.getClient cid).isSome →
        (m.RemoveClient cid reason).1.globalConns = m.globalConns - 1) ∧
      (m.getClient cid = none → (m.RemoveClient cid reason).1 = m)) ∧
    (∀ now, (m.cleanupInactiveConnections now).1.globalConns =
        (totalClients (m.cleanupInactiveConnections now).1 : Int)) := by
  obtain ⟨hWF, hC, hU⟩ := reachable_inv m hm
  refine ⟨hC, ?_, ?_, ?_⟩
  · intro cid ip ipAllow rl b now
    constructor
    · intro hsome
      simp only [Manager.AddConnection] at hsome ⊢
      by_cases hg : m.globalConns ≥ m.maxConns
      · rw [if_pos hg] at hsome
        simp at hsome
      · rw [if_neg hg] at hsome ⊢
        cases ipAllow with
        | false => simp at hsome
        | true =>
          simp only [Bool.not_true, if_neg (by simp : ¬(false = true))] at hsome ⊢
          cases hget : m.shards.get? (m.getShardID cid) with
          | none =>
            rw [hget] at hsome
            simp at hsome
          | some shard => rfl
    · intro hnone
      simp only [Manager.AddConnection] at hnone ⊢
      by_cases hg : m.globalConns ≥ m.maxConns
      · rw [if_pos hg] at hnone ⊢
      · rw [if_neg hg] at hnone ⊢
        cases ipAllow with
        | false => simp
        | true =>
          simp only [Bool.not_true, if_neg (by simp : ¬(false = true))] at hnone ⊢
          cases hget : m.shards.get? (m.getShardID cid) with
          | none => rfl
          | some shard =>
            rw [hget] at hnone
            simp at hnone
  · intro cid reason
    constructor
    · intro hsome
      obtain ⟨c, hc⟩ := Option.isSome_iff_exists.mp hsome
      obtain ⟨shard, hget, hl⟩ := getClient_some m cid c hc
      rw [RemoveClient_found m cid reason c shard hget hl]
    · intro hnone
      unfold Manager.getClient at hnone
      simp only [Manager.RemoveClient]
      cases hget : m.shards.get? (m.getShardID cid) with
      | none => rfl
      | some shard =>
        rw [hget] at hnone
        simp at hnone
        simp only [Shard.GetClient] at hnone
        simp only [Shard.RemoveClient, hnone]
  · intro now
    have hr : Reachable (m.cleanupInactiveConnections now).1 := Reachable.cleanup m now hm
    exact (reachable_inv _ hr).2.1

/-- C5 witness. -/
theorem global_counter_matches_shards_witness :
    (mW1.globalConns = (totalClients mW1 : Int)) ∧
    ((mW1.RemoveClient "A" "bye").1.globalConns = mW1.globalConns - 1) := by
  have h := global_counter_matches_shards mW1 reachable_mW1
  exact ⟨h.1, (h.2.2.1 "A" "bye").1 (by decide)⟩

/-! ## Claim C2 -/

/-- C2: at every reachable state every user has at most
`connections_per_user` live authenticated sessions (with the
`UserRateLimiter` modelled from the spec as an integer cap on open
authenticated sessions), `AuthenticateClient` rejects a registration by
a user already at the cap leaving the state unchanged, and the router
(modelled from the spec) then closes the rejected session with reason
`user_limit`. -/
theorem user_concurrency_cap (m : Manager) (hm : Reachable m) :
    (∀ u, m.liveAuthSessions u ≤ m.connectionsPerUser) ∧
    (∀ cid uid did c, m.getClient cid = some c →
      m.connectionsPerUser ≤ m.liveAuthSessions uid →
      (m.AuthenticateClient cid uid did).1 = .userLimitExceeded ∧
      (m.AuthenticateClient cid uid did).2 = m ∧
      (m.routerAuthenticate cid uid did).2 =
        [GwEvent.disconnected (c.Close "user_limit") "user_limit"] ∧
      (m.routerAuthenticate cid uid did).1.getClient cid = none) := by
  obtain ⟨hWF, hC, hU⟩ := reachable_inv m hm
  refine ⟨hU, ?_⟩
  intro cid uid did c hc hcap
  obtain ⟨shard, hget, hl⟩ := getClient_some m cid c hc
  have hallow : m.userLimiterAllow uid = false := by
    simp [Manager.userLimiterAllow]
    omega
  have hA : m.AuthenticateClient cid uid did = (.userLimitExceeded, m) := by
    simp only [Manager.AuthenticateClient, hget, hl, hallow, Bool.not_false, if_pos]
  have hR : m.routerAuthenticate cid uid did = m.RemoveClient cid "user_limit" := by
    simp only [Manager.routerAuthenticate, hA]
  refine ⟨by rw [hA], by rw [hA], ?_, ?_⟩
  · rw [hR, RemoveClient_found m cid "user_limit" c shard hget hl]
  · rw [hR]
    exact (RemoveClient_gone m cid "user_limit" c shard hWF hget hl).1

/-- C2 witness. -/
theorem user_concurrency_cap_witness :
    (mW1.liveAuthSessions "u1" ≤ mW1.connectionsPerUser) ∧
    ((mW1.routerAuthenticate "A" "u1" "d1").1.getClient "A" = none) := by
  have h := user_concurrency_cap mW1 reachable_mW1
  refine ⟨h.1 "u1", ?_⟩
  have h2 := h.2 "A" "u1" "d1" (NewClient "A" "ip" 0 0 0 0) (by decide) (by decide)
  exact h2.2.2.2

/-! ## Claim C6 -/

/-- C6: for a live session, the teardown (`Manager.RemoveClient`, which
runs `Client.Close`) is idempotent: the first call removes the session
from both shard indexes, decrements the global counter, transitions the
session to Closing, cancels the pipelines, closes the outbound queue
and the socket, and fires the on-disconnect hook exactly once; a second
call is a no-op with no second hook invocation, and `Client.Close`
itself is idempotent. -/
theorem close_idempotent (m : Manager) (cid reason reason2 : String) (c : Client)
    (hm : Reachable m) (hc : m.getClient cid = some c) (hnc : c.closing = false) :
    ((m.RemoveClient cid reason).1.getClient cid = none) ∧
    ((m.RemoveClient cid reason).1.globalConns = m.globalConns - 1) ∧
    ((m.RemoveClient cid reason).2 = [GwEvent.disconnected (c.Close reason) reason]) ∧
    ((c.Close reason).closing = true ∧ (c.Close reason).cancelled = true ∧
      (c.Close reason).sendClosed = true ∧ (c.Close reason).connClosed = true) ∧
    (c.userID ≠ "" → ∀ shard',
      (m.RemoveClient cid reason).1.shards.get? (m.getShardID cid) = some shard' →
      userIndexLookup shard' c.userID c.deviceID = none) ∧
    ((m.RemoveClient cid reason).1.RemoveClient cid reason2 =
        ((m.RemoveClient cid reason).1, [])) ∧
    ((c.Close reason).Close reason2 = c.Close reason) := by
  obtain ⟨hWF, hC, hU⟩ := reachable_inv m hm
  obtain ⟨shard, hget, hl⟩ := getClient_some m cid c hc
  have hgone := RemoveClient_gone m cid reason c shard hWF hget hl
  have hrf := RemoveClient_found m cid reason c shard hget hl
  refine ⟨hgone.1, by rw [hrf], by rw [hrf], ?_, ?_, hgone.2.2.2 reason2, ?_⟩
  · simp [Client.Close, hnc]
  · intro hu shard' hget'
    have : shard' = shard.dropClient c cid := by
      have h2 := hgone.2.1
      rw [hget'] at h2
      exact Option.some_inj.mp h2
    rw [this]
    rcases hgone.2.2.1 with h' | h'
    · exact h'
    · exact absurd h' hu
  · simp [Client.Close, hnc]

/-- C6 witness. -/
theorem close_idempotent_witness :
    ((mW1.RemoveClient "A" "gone").1.RemoveClient "A" "again" =
        ((mW1.RemoveClient "A" "gone").1, [])) ∧
    ((mW1.RemoveClient "A" "gone").1.getClient "A" = none) := by
  have h := close_idempotent mW1 "A" "gone" "again" (NewClient "A" "ip" 0 0 0 0)
    reachable_mW1 (by decide) (by decide)
  exact ⟨h.2.2.2.2.2.1, h.1⟩

/-- C1 counterexample: after the colliding registration the older
session A is still in the primary map, is not closing (no `superseded`
close happened anywhere — `RegisterAuthenticatedClient` never calls
`Close`), and two live authenticated sessions for (u1, d1) exist, so
the claimed at-most-one property fails. -/
theorem register_supersede_counterexample :
    (c1shard2.GetClient "A" = some (c1cA.SetAuthenticated "u1" "d1")) ∧
    ((c1cA.SetAuthenticated "u1" "d1").closing = false) ∧
    (userIndexLookup c1shard2 "u1" "d1" = some "B") ∧
    (livePairCount c1shard2 "u1" "d1" = 2) := by
  refine ⟨by decide, by decide, by decide, by decide⟩

/-- C1 amended: a colliding authenticated registration makes the newer
client replace the older entry in the shard's user index, but the older
session is not closed: its record in the primary map is untouched (in
particular its closing flag is unchanged), so the older session stays
live and the pair can have two live sessions. -/
theorem register_replaces_index_without_close (s : Shard) (client : Client)
    (uid did cidOld : String) (cOld : Client)
    (hne : cidOld ≠ client.id)
    (hold : lookupA s.clients cidOld = some cOld) :
    (userIndexLookup (s.RegisterAuthenticatedClient client uid did) uid did =
        some client.id) ∧
    (lookupA (s.RegisterAuthenticatedClient client uid did).clients cidOld = some cOld) := by
  constructor
  · simp only [Shard.RegisterAuthenticatedClient, userIndexLookup, ucLookup,
      lookupA_insertA_self]
  · simp only [Shard.RegisterAuthenticatedClient]
    rw [lookupA_updateA_ne s.clients client.id cidOld _ (Ne.symm hne)]
    exact hold

/-- C1 amended witness. -/
theorem register_replaces_index_without_close_witness :
    (userIndexLookup c1shard2 "u1" "d1" = some c1cB.id) ∧
    (lookupA c1shard2.clients "A" = some (c1cA.SetAuthenticated "u1" "d1")) := by
  have h := register_replaces_index_without_close c1shard c1cB "u1" "d1" "A"
    (c1cA.SetAuthenticated "u1" "d1") (by decide) (by decide)
  exact h

/-- C3 counterexample: a session whose queue holds 256 messages but
which is closing gets `ErrClientClosed`, not `client_slow`, from
`WriteMessage`. -/
theorem writeMessage_full_counterexample :
    (c3closingFull.send.length = 256) ∧
    (c3closingFull.WriteMessage [1] = (c3closingFull, some .clientClosed)) ∧
    (some WriteErr.clientClosed ≠ some WriteErr.clientSlow) := by
  refine ⟨by decide, by decide, by decide⟩

/-- C3 amended: for a session that is not closing, a full queue makes
`WriteMessage` return `client_slow` without blocking, dropping the
message and leaving the session open with the queue unchanged; a
non-full queue accepts the message with no error; and the queue length
never exceeds 256. -/
theorem writeMessage_backpressure (c : Client) (msg : List Nat)
    (hcap : c.sendCap = 256) :
    (c.closing = false → c.send.length = 256 →
      c.WriteMessage msg = (c, some .clientSlow)) ∧
    (c.closing = false → c.send.length < 256 →
      (c.WriteMessage msg).2 = none ∧ (c.WriteMessage msg).1.send = c.send ++ [msg] ∧
      (c.WriteMessage msg).1.closing = false) ∧
    (c.send.length ≤ 256 → (c.WriteMessage msg).1.send.length ≤ 256) := by
  refine ⟨?_, ?_, ?_⟩
  · intro hcl hfull
    simp [Client.WriteMessage, hcl, hcap, hfull]
  · intro hcl hroom
    simp [Client.WriteMessage, hcl, hcap, hroom]
  · intro hle
    by_cases hcl : c.closing
    · simp [Client.WriteMessage, hcl, hle]
    · by_cases hroom : c.send.length < c.sendCap
      · simp [Client.WriteMessage, hcl, hroom]
        omega
      · simp [Client.WriteMessage, hcl, hroom, hle]

/-- C3 amended witness. -/
theorem writeMessage_backpressure_witness :
    (c3full.WriteMessage [1] = (c3full, some .clientSlow)) ∧
    (((NewClient "B" "ip" 0 0 0 0).WriteMessage [2]).2 = none) := by
  have h1 := writeMessage_backpressure c3full [1] (by decide)
  have h2 := writeMessage_backpressure (NewClient "B" "ip" 0 0 0 0) [2] (by decide)
  exact ⟨h1.1 (by decide) (by decide), (h2.2.1 (by decide) (by decide)).1⟩

/-! ## Claim C4 -/

/-- C4: the pub/sub adapter silently discards any envelope stamped with
this node's own id (no handler fires), and for an envelope from another
node it invokes exactly the handler registered for the inner message's
type. -/
theorem pubsub_loop_suppression (r : RedisPubSub) (e : Envelope) :
    (e.nodeId = r.nodeId → r.processMessage e = none) ∧
    (e.nodeId ≠ r.nodeId → ∀ h, lookupA r.handlers e.message.type = some h →
      r.processMessage e = some (h, e.message)) := by
  constructor
  · intro h
    simp [RedisPubSub.processMessage, h]
  · intro h hid hl
    simp [RedisPubSub.processMessage, h, hl]

/-- C4 witness, including that a freshly published envelope is
suppressed on its own node. -/
theorem pubsub_loop_suppression_witness :
    (RedisPubSub.processMessage ⟨"ws-gateway:messages", "n1", [("presence", 7)]⟩
        (RedisPubSub.Publish ⟨"ws-gateway:messages", "n1", [("presence", 7)]⟩
          ⟨"presence", "m1", 5⟩ 5) = none) ∧
    (RedisPubSub.processMessage ⟨"ws-gateway:messages", "n1", [("presence", 7)]⟩
        ⟨"n2", 5, ⟨"presence", "m1", 5⟩⟩ = some (7, ⟨"presence", "m1", 5⟩)) := by
  constructor
  · exact (pubsub_loop_suppression _ _).1 rfl
  · exact (pubsub_loop_suppression _ _).2 (by decide) 7 (by decide)

/-- C7 counterexample: with the global ceiling reached, the inbound
attempt is still upgraded (the global check runs only inside
`AddConnection`, after the upgrade), no HTTP status — in particular no
503 — is written, and the already-upgraded socket is closed. -/
theorem admission_counterexample :
    ((ServeHTTP c7m "1.2.3.4" "c2" true true 0 0 0).1.upgraded = true) ∧
    ((ServeHTTP c7m "1.2.3.4" "c2" true true 0 0 0).1.httpStatus = none) ∧
    ((ServeHTTP c7m "1.2.3.4" "c2" true true 0 0 0).1.connClosedAfterUpgrade = true) := by
  refine ⟨by decide, by decide, by decide⟩

/-- C7 amended: `checkIPLimit` runs before the upgrade but is stubbed
to admit every IP, so 429 is never returned; the global-concurrency
check and the IP token-bucket check run inside `AddConnection` only
after the upgrade has succeeded, and a rejection there closes the
already-upgraded socket without writing any HTTP status (no 503). -/
theorem admission_checks_after_upgrade (m : Manager) (ip cid : String)
    (ipAllow : Bool) (rl b : Nat) (now : Int) :
    (checkIPLimit ip = true) ∧
    (m.globalConns ≥ m.maxConns →
      ServeHTTP m ip cid true ipAllow rl b now =
        ({ httpStatus := none, upgraded := true, connClosedAfterUpgrade := true,
           client := none }, m, [])) ∧
    (m.globalConns < m.maxConns → ipAllow = false →
      ServeHTTP m ip cid true ipAllow rl b now =
        ({ httpStatus := none, upgraded := true, connClosedAfterUpgrade := true,
           client := none }, m, [])) := by
  refine ⟨rfl, ?_, ?_⟩
  · intro hg
    simp [ServeHTTP, checkIPLimit, Manager.AddConnection, hg]
  · intro hg hip
    have hng : ¬ m.globalConns ≥ m.maxConns := by omega
    simp [ServeHTTP, checkIPLimit, Manager.AddConnection, hng, hip]

/-- C7 amended witness. -/
theorem admission_checks_after_upgrade_witness :
    (checkIPLimit "9.9.9.9" = true) ∧
    (ServeHTTP c7m "9.9.9.9" "c3" true true 0 0 0 =
      ({ httpStatus := none, upgraded := true, connClosedAfterUpgrade := true,
         client := none }, c7m, [])) := by
  have h := admission_checks_after_upgrade c7m "9.9.9.9" "c3" true 0 0 0
  exact ⟨h.1, h.2.1 (by decide)⟩

/-- C8: the sweep does remove the stale session from the shard and
decrements the counter, but the on-disconnect hook never fires: the
manager looks the removed id up with `shard.GetClient` *after* the
sweep already deleted it, so the guard `client != nil` is always false
and no removed client-id is ever reported. -/
theorem cleanup_never_fires_disconnect :
    (staleAt 1000 (c8m.pongWait * 2) (NewClient "c1" "ip" 0 0 0 0) = true) ∧
    ((c8m.cleanupInactiveConnections 1000).1.getClient "c1" = none) ∧
    ((c8m.cleanupInactiveConnections 1000).1.globalConns = 0) ∧
    ((c8m.cleanupInactiveConnections 1000).2 = []) := by
  refine ⟨by decide, by decide, by decide, by decide⟩

/-! ## Claim C9 -/

/-- C9 counterexample: with the default `max_message_size` of 512 KiB,
a frame one byte larger is accepted by the read pipeline (the hardcoded
1 MiB `SetReadLimit` is what is enforced), not rejected with a
`MESSAGE_TOO_LARGE` error frame. -/
theorem frame_size_counterexample :
    (defaultMaxMessageSize = 512 * 1024) ∧
    (readPumpFrame (defaultMaxMessageSize + 1) true = .delivered) ∧
    (readPumpFrame (defaultMaxMessageSize + 1) true ≠ .errorFrame "MESSAGE_TOO_LARGE") := by
  refine ⟨by decide, by decide, by decide⟩

/-- C9 amended: the read pipeline enforces the hardcoded 1 MiB read
limit and ignores `config.server.max_message_size`: any frame up to
1 MiB passes the size check (then either delivered or answered with a
`RATE_LIMIT_EXCEEDED` error frame), a larger frame terminates the read
pipeline, and no `MESSAGE_TOO_LARGE` error frame exists. -/
theorem readPump_hardcoded_limit (frameSize : Nat) (rateAllow : Bool) :
    (frameSize ≤ readPumpLimit → readPumpFrame frameSize rateAllow ≠ .pumpClosed) ∧
    (frameSize > readPumpLimit → readPumpFrame frameSize rateAllow = .pumpClosed) ∧
    (∀ code, readPumpFrame frameSize rateAllow = .errorFrame code →
      code = "RATE_LIMIT_EXCEEDED") := by
  refine ⟨?_, ?_, ?_⟩
  · intro hle
    cases rateAllow <;> simp [readPumpFrame, Nat.not_lt.mpr hle]
  · intro hgt
    simp [readPumpFrame, hgt]
  · intro code h
    by_cases hgt : frameSize > readPumpLimit
    · simp [readPumpFrame, hgt] at h
    · cases rateAllow <;> simp [readPumpFrame, hgt] at h
      exact h.symm

/-- C9 amended witness. -/
theorem readPump_hardcoded_limit_witness :
    (readPumpFrame (1024 * 1024) true ≠ .pumpClosed) ∧
    (readPumpFrame (1024 * 1024 + 1) true = .pumpClosed) ∧
    (readPumpFrame 10 false = .errorFrame "RATE_LIMIT_EXCEEDED") := by
  have h1 := readPump_hardcoded_limit (1024 * 1024) true
  have h2 := readPump_hardcoded_limit (1024 * 1024 + 1) true
  refine ⟨h1.1 (by decide), h2.2.1 (by decide), by decide⟩

/-! ## Claim C10 -/

/-- C10: for a nonempty user id and positive configured expiry,
validating a freshly generated token succeeds and returns the original
user and device ids; and any token whose issuer is not
"websocket-gateway" or whose user id is empty is rejected. -/
theorem jwt_roundtrip_and_rejection (cfg : AuthConfig) (uid did : String) (now : Int) :
    (uid ≠ "" → 0 < cfg.tokenExpiry →
      (NewAuthenticator cfg).ValidateToken
          ((NewAuthenticator cfg).GenerateToken uid did now) now =
        .ok ((NewAuthenticator cfg).GenerateToken uid did now).claims ∧
      ((NewAuthenticator cfg).GenerateToken uid did now).claims.userId = uid ∧
      ((NewAuthenticator cfg).GenerateToken uid did now).claims.deviceId = did) ∧
    (∀ t now2, t.claims.issuer ≠ "websocket-gateway" →
      ∃ e, (NewAuthenticator cfg).ValidateToken t now2 = .error e) ∧
    (∀ t now2, t.claims.userId = "" →
      ∃ e, (NewAuthenticator cfg).ValidateToken t now2 = .error e) := by
  refine ⟨?_, ?_, ?_⟩
  · intro huid hexp
    refine ⟨?_, rfl, rfl⟩
    simp only [Authenticator.ValidateToken, Authenticator.GenerateToken, NewAuthenticator,
      SigningMethod.isHMAC]
    rw [if_neg (by simp), if_neg (by simp), if_neg (by simp; omega),
      if_neg (by simp), if_neg (by simp), if_neg (by simpa using huid)]
  · intro t now2 hiss
    unfold Authenticator.ValidateToken
    by_cases h1 : !t.method.isHMAC
    · rw [if_pos h1]; exact ⟨_, rfl⟩
    · rw [if_neg h1]
      by_cases h2 : t.key ≠ (NewAuthenticator cfg).secret
      · rw [if_pos h2]; exact ⟨_, rfl⟩
      · rw [if_neg h2]
        by_cases h3 : ¬ (now2 < t.claims.expiresAt)
        · rw [if_pos h3]; exact ⟨_, rfl⟩
        · rw [if_neg h3]
          by_cases h4 : ¬ (t.claims.notBefore ≤ now2)
          · rw [if_pos h4]; exact ⟨_, rfl⟩
          · rw [if_neg h4]
            rw [if_pos (show t.claims.issuer ≠ (NewAuthenticator cfg).issuer from hiss)]
            exact ⟨_, rfl⟩
  · intro t now2 huid
    unfold Authenticator.ValidateToken
    by_cases h1 : !t.method.isHMAC
    · rw [if_pos h1]; exact ⟨_, rfl⟩
    · rw [if_neg h1]
      by_cases h2 : t.key ≠ (NewAuthenticator cfg).secret
      · rw [if_pos h2]; exact ⟨_, rfl⟩
      · rw [if_neg h2]
        by_cases h3 : ¬ (now2 < t.claims.expiresAt)
        · rw [if_pos h3]; exact ⟨_, rfl⟩
        · rw [if_neg h3]
          by_cases h4 : ¬ (t.claims.notBefore ≤ now2)
          · rw [if_pos h4]; exact ⟨_, rfl⟩
          · rw [if_neg h4]
            by_cases h6 : t.claims.issuer ≠ (NewAuthenticator cfg).issuer
            · rw [if_pos h6]; exact ⟨_, rfl⟩
            · rw [if_neg h6, if_pos huid]; exact ⟨_, rfl⟩

/-- C10 witness. -/
theorem jwt_roundtrip_and_rejection_witness :
    ((NewAuthenticator ⟨"s3cret", 3600⟩).ValidateToken
        ((NewAuthenticator ⟨"s3cret", 3600⟩).GenerateToken "u1" "d1" 0) 0 =
      .ok ((NewAuthenticator ⟨"s3cret", 3600⟩).GenerateToken "u1" "d1" 0).claims) ∧
    (∃ e, (NewAuthenticator ⟨"s3cret", 3600⟩).ValidateToken
        ⟨⟨"u1", "d1", "", "evil-issuer", 100, 0, 0, "j"⟩, .hs256, "s3cret"⟩ 0 = .error e) := by
  have h := jwt_roundtrip_and_rejection ⟨"s3cret", 3600⟩ "u1" "d1" 0
  exact ⟨(h.1 (by decide) (by decide)).1,
    h.2.1 ⟨⟨"u1", "d1", "", "evil-issuer", 100, 0, 0, "j"⟩, .hs256, "s3cret"⟩ 0 (by decide)⟩

end Gateway
